import Mathlib

/-!
Verification of the page-composition core of the image-to-PDF converter
(`src/main.py`), centred on `PDFWorker.run` (lines 115-172) and the inline
layout computation (lines 136-149).

Modelling conventions:
* Machine reals (Python floats) are embedded as exact rationals `ℚ`; the
  arithmetic of the layout and progress computations is therefore exact.
* An input image is abstracted by `ImgSpec`: its path, its reported pixel
  dimensions, and two oracle flags saying whether the external library calls
  `Image.open` (the dimension probe) and `canvas.drawImage` (the actual
  decode-and-draw, which re-reads the file and can fail independently)
  succeed on it.  `Image.open` only reads the header, so a file whose probe
  succeeds can still fail to draw.
* The reportlab canvas is modelled by `CanvasSt`: committed pages plus the
  buffer of content operators of the page under construction (`_code`).
  `setFillColorRGB`, `rect` and a successful `drawImage` each append to the
  buffer; `showPage` commits the buffer as a page; `save` first commits a
  pending non-empty buffer ("if there is current data a ShowPage is executed
  automatically") and then writes the file, which is the only point that can
  fail at the builder level (`saveOk`).
* Python `int(x)` on the non-negative progress value truncates, embedded as
  `Nat` division; Python `ZeroDivisionError` from `page_width / width` is the
  layout failure `LayoutError.zeroDivisionError`.
-/

namespace Image2PDF

/-- An RGB colour triple, the model of the `QColor` background
(`redF`, `greenF`, `blueF` components). -/
abbrev Color := ℚ × ℚ × ℚ

/-- Width of an A4 page in points, the exact value 210mm · 72/25.4
whose rounding reportlab's `A4` constant stores. -/
def a4_width : ℚ := 75600 / 127

/-- Height of an A4 page in points, the exact value 297mm · 72/25.4. -/
def a4_height : ℚ := 106920 / 127

/-- The page-size policy of a run: `use_a4 = True` in the source selects a
fixed page size (A4), `use_a4 = False` sizes each page to its image. -/
inductive PagePolicy where
  | fixedSize (W H : ℚ)
  | matchImage

/-- The geometry computed for one image by lines 136-149 of `src/main.py`:
page size, scale ratio, drawn image size (`new_width`/`new_height`) and
bottom-left drawing offset (`x`/`y`). -/
structure LayoutResult where
  pageW : ℚ
  pageH : ℚ
  ratio : ℚ
  drawnW : ℚ
  drawnH : ℚ
  x : ℚ
  y : ℚ
  deriving DecidableEq, Repr

/-- The one way the layout computation itself can fail: Python raises
`ZeroDivisionError` in `min(page_width / width, page_height / height)`
when a dimension is zero. -/
inductive LayoutError where
  | zeroDivisionError
  deriving DecidableEq, Repr

/-- The layout computation of `src/main.py` lines 136-149, with the fixed
page size abstracted to `(W, H)` (the source instantiates it with A4):
under `matchImage` the page is the image and `ratio = 1`; under
`fixedSize` the ratio is `min(W/imgW, H/imgH)`, raising a division-by-zero
error when a dimension is zero.  Lines 146-149 (drawn size and centring
offsets) are shared by both branches. -/
def compute_layout (w h : ℚ) : PagePolicy → Except LayoutError LayoutResult
  | PagePolicy.matchImage =>
      let ratio : ℚ := 1
      Except.ok ⟨w, h, ratio, w * ratio, h * ratio,
        (w - w * ratio) / 2, (h - h * ratio) / 2⟩
  | PagePolicy.fixedSize W H =>
      if w = 0 ∨ h = 0 then Except.error LayoutError.zeroDivisionError
      else
        let ratio : ℚ := min (W / w) (H / h)
        Except.ok ⟨W, H, ratio, w * ratio, h * ratio,
          (W - w * ratio) / 2, (H - h * ratio) / 2⟩

/-- The policy actually used by `PDFWorker.run` for a given `use_a4` flag. -/
def policyOf (use_a4 : Bool) : PagePolicy :=
  if use_a4 then PagePolicy.fixedSize a4_width a4_height else PagePolicy.matchImage

/-- One input image as the worker observes it: its path, the pixel size
reported by the `Image.open` probe, and whether the probe (`decodeOk`) and
the later `drawImage` call (`drawOk`) succeed. -/
structure ImgSpec where
  path : String
  decodeOk : Bool
  w : ℚ
  h : ℚ
  drawOk : Bool
  deriving DecidableEq, Repr

/-- The per-image exception kinds caught by the inner `except` of the loop. -/
inductive ImgError where
  | decodeError
  | zeroDivisionError
  | drawError
  deriving DecidableEq, Repr

/-- An entry of the `failed_images` list: a per-image entry naming the
image's path (line 161) or the builder-level `PDF creation failed` entry
appended when `c.save()` raises (line 169). -/
inductive Failure where
  | image (path : String) (e : ImgError)
  | builder
  deriving DecidableEq, Repr

/-- A content operator appended to the current page's buffer:
`setFillColorRGB` (line 152), `rect` (line 153) or `drawImage` (line 155). -/
inductive Op where
  | setFill (c : Color)
  | rect (x y w h : ℚ)
  | drawImage (path : String) (x y w h : ℚ)
  deriving DecidableEq, Repr

/-- The reportlab canvas state: committed pages, the operator buffer of the
page under construction, and the current page size (set by `setPageSize`). -/
structure CanvasSt where
  pages : List (List Op)
  buf : List Op
  pageSize : ℚ × ℚ
  deriving DecidableEq, Repr

/-- Append content operators to the current page's buffer. -/
def addOps (st : CanvasSt) (ops : List Op) : CanvasSt :=
  { st with buf := st.buf ++ ops }

/-- Model of `canvas.showPage()`: commit the buffered operators as the next page and
start a fresh page. -/
def showPage (st : CanvasSt) : CanvasSt :=
  { st with pages := st.pages ++ [st.buf], buf := [] }

/-- The body of one iteration of the loop at lines 131-164: probe the image,
compute the layout (a `ZeroDivisionError` there is caught like any other
exception), set the page size in match-image mode, paint the background
rectangle, draw the image, and on full success commit the page.  Returns
the canvas state together with the caught exception, if any; on an
exception the operators already buffered stay buffered. -/
def stepImage (use_a4 : Bool) (bg : Color) (img : ImgSpec) (st : CanvasSt) :
    CanvasSt × Option ImgError :=
  if img.decodeOk then
    match compute_layout img.w img.h (policyOf use_a4) with
    | Except.error _ => (st, some ImgError.zeroDivisionError)
    | Except.ok r =>
        let st1 := if use_a4 then st else { st with pageSize := (img.w, img.h) }
        let st2 := addOps st1 [Op.setFill bg, Op.rect 0 0 r.pageW r.pageH]
        if img.drawOk then
          (showPage (addOps st2 [Op.drawImage img.path r.x r.y r.drawnW r.drawnH]), none)
        else (st2, some ImgError.drawError)
  else (st, some ImgError.decodeError)

/-- The loop of lines 131-164, threading the canvas, the `failed_images`
list and the emitted progress values; `idx` is the 1-based index and the
progress value is `int(idx / total * 100)`, i.e. truncation, embedded as
`Nat` division. -/
def runLoop (use_a4 : Bool) (bg : Color) (total : Nat) :
    List ImgSpec → Nat → CanvasSt → List Failure → List Nat →
    CanvasSt × List Failure × List Nat
  | [], _, st, fs, prog => (st, fs, prog)
  | img :: rest, idx, st, fs, prog =>
      let r := stepImage use_a4 bg img st
      let fs' := match r.2 with
        | some e => fs ++ [Failure.image img.path e]
        | none => fs
      runLoop use_a4 bg total rest (idx + 1) r.1 fs' (prog ++ [idx * 100 / total])

/-- The observable outcome of one `PDFWorker.run`: the pages of the saved
document, the `failed_images` list passed to `finished.emit`, and the
sequence of values passed to `progress.emit`. -/
structure RunResult where
  pages : List (List Op)
  failures : List Failure
  progress : List Nat
  deriving DecidableEq, Repr

namespace PDFWorker

/-- Model of `PDFWorker.run` (lines 115-172): create the canvas, process every image
in order, then `c.save()` — which first commits a pending non-empty buffer
as a page and then writes the file; a write failure (`saveOk = false`) is
caught by the outer `except` and recorded as the builder-level entry.  The
`failed_images` list is emitted unconditionally at the end. -/
def run (use_a4 : Bool) (bg : Color) (saveOk : Bool) (images : List ImgSpec) :
    RunResult :=
  let st0 : CanvasSt := ⟨[], [], (a4_width, a4_height)⟩
  let r := runLoop use_a4 bg images.length images 1 st0 [] []
  let pages := if r.1.buf.isEmpty then r.1.pages else r.1.pages ++ [r.1.buf]
  let fs := if saveOk then r.2.1 else r.2.1 ++ [Failure.builder]
  ⟨pages, fs, r.2.2⟩

end PDFWorker

/-! Characterization helpers: closed forms for the exception, the buffered
operators and the committed pages of one loop iteration, proved equal to the
projections of `stepImage` and then folded over the input list. -/

/-- The exception (if any) that one loop iteration catches for an image. -/
def errorOf (use_a4 : Bool) (img : ImgSpec) : Option ImgError :=
  if img.decodeOk then
    if use_a4 ∧ (img.w = 0 ∨ img.h = 0) then some ImgError.zeroDivisionError
    else if img.drawOk then none else some ImgError.drawError
  else some ImgError.decodeError

/-- The background operators painted for an image that reaches line 152
(fill colour plus full-page rectangle). -/
def paintOps (use_a4 : Bool) (bg : Color) (img : ImgSpec) : List Op :=
  match compute_layout img.w img.h (policyOf use_a4) with
  | Except.error _ => []
  | Except.ok r => [Op.setFill bg, Op.rect 0 0 r.pageW r.pageH]

/-- The full operator run of a successfully processed image: background
fill and rectangle followed by the placed image. -/
def successOps (use_a4 : Bool) (bg : Color) (img : ImgSpec) : List Op :=
  match compute_layout img.w img.h (policyOf use_a4) with
  | Except.error _ => []
  | Except.ok r =>
      [Op.setFill bg, Op.rect 0 0 r.pageW r.pageH,
       Op.drawImage img.path r.x r.y r.drawnW r.drawnH]

/-- The operators an image leaves stranded in the page buffer when it fails:
nothing for a decode or layout failure, the painted background for a
`drawImage` failure. -/
def strayOps (use_a4 : Bool) (bg : Color) (img : ImgSpec) : List Op :=
  if errorOf use_a4 img = some ImgError.drawError then paintOps use_a4 bg img else []

/-- Closed form of the canvas part of the loop: given the buffer inherited
from earlier iterations, the list of pages the remaining images commit and
the buffer they leave behind. -/
def pagesAndBuf (use_a4 : Bool) (bg : Color) :
    List ImgSpec → List Op → List (List Op) × List Op
  | [], b => ([], b)
  | img :: rest, b =>
      if errorOf use_a4 img = none then
        let r := pagesAndBuf use_a4 bg rest []
        ((b ++ successOps use_a4 bg img) :: r.1, r.2)
      else pagesAndBuf use_a4 bg rest (b ++ strayOps use_a4 bg img)

/-- Stranded operators of a run of images none of which succeeds. -/
def strays (use_a4 : Bool) (bg : Color) (l : List ImgSpec) : List Op :=
  (l.map (strayOps use_a4 bg)).flatten

theorem stepImage_snd (use_a4 : Bool) (bg : Color) (img : ImgSpec) (st : CanvasSt) :
    (stepImage use_a4 bg img st).2 = errorOf use_a4 img := by
  unfold stepImage errorOf policyOf
  by_cases hd : img.decodeOk
  · by_cases hu : use_a4
    · by_cases hz : img.w = 0 ∨ img.h = 0
      · simp [hd, hu, hz, compute_layout]
      · by_cases hw : img.drawOk <;> simp [hd, hu, hz, compute_layout, hw]
    · by_cases hw : img.drawOk <;> simp [hd, hu, compute_layout, hw]
  · simp [hd]

theorem stepImage_fst_pages (use_a4 : Bool) (bg : Color) (img : ImgSpec) (st : CanvasSt) :
    (stepImage use_a4 bg img st).1.pages =
      st.pages ++
        (if errorOf use_a4 img = none then [st.buf ++ successOps use_a4 bg img] else []) := by
  unfold stepImage errorOf successOps policyOf
  by_cases hd : img.decodeOk
  · by_cases hu : use_a4
    · by_cases hz : img.w = 0 ∨ img.h = 0
      · simp [hd, hu, hz, compute_layout]
      · by_cases hw : img.drawOk <;>
          simp [hd, hu, hz, compute_layout, hw, showPage, addOps]
    · by_cases hw : img.drawOk <;>
        simp [hd, hu, compute_layout, hw, showPage, addOps]
  · simp [hd]

theorem stepImage_fst_buf (use_a4 : Bool) (bg : Color) (img : ImgSpec) (st : CanvasSt) :
    (stepImage use_a4 bg img st).1.buf =
      (if errorOf use_a4 img = none then [] else st.buf ++ strayOps use_a4 bg img) := by
  unfold stepImage errorOf strayOps paintOps policyOf
  by_cases hd : img.decodeOk
  · by_cases hu : use_a4
    · by_cases hz : img.w = 0 ∨ img.h = 0
      · simp [hd, hu, hz, compute_layout]
      · by_cases hw : img.drawOk <;>
          simp [hd, hu, hz, compute_layout, hw, showPage, addOps, errorOf]
    · by_cases hw : img.drawOk <;>
        simp [hd, hu, compute_layout, hw, showPage, addOps, errorOf]
  · simp [hd, errorOf]

theorem runLoop_cons (use_a4 : Bool) (bg : Color) (total : Nat) (img : ImgSpec)
    (rest : List ImgSpec) (idx : Nat) (st : CanvasSt) (fs : List Failure)
    (prog : List Nat) :
    runLoop use_a4 bg total (img :: rest) idx st fs prog =
      runLoop use_a4 bg total rest (idx + 1) (stepImage use_a4 bg img st).1
        (fs ++ ((errorOf use_a4 img).map (Failure.image img.path)).toList)
        (prog ++ [idx * 100 / total]) := by
  have hs := stepImage_snd use_a4 bg img st
  rw [← hs]
  rcases h : (stepImage use_a4 bg img st).2 with _ | e <;> simp [runLoop, h]

theorem runLoop_canvas (use_a4 : Bool) (bg : Color) (total : Nat)
    (l : List ImgSpec) :
    ∀ (idx : Nat) (st : CanvasSt) (fs : List Failure) (prog : List Nat),
      ((runLoop use_a4 bg total l idx st fs prog).1.pages
          = st.pages ++ (pagesAndBuf use_a4 bg l st.buf).1) ∧
      ((runLoop use_a4 bg total l idx st fs prog).1.buf
          = (pagesAndBuf use_a4 bg l st.buf).2) := by
  induction l with
  | nil => intro idx st fs prog; simp [runLoop, pagesAndBuf]
  | cons img rest ih =>
      intro idx st fs prog
      rw [runLoop_cons]
      constructor
      · rw [(ih _ _ _ _).1, stepImage_fst_pages, stepImage_fst_buf]
        by_cases h : errorOf use_a4 img = none <;> simp [pagesAndBuf, h]
      · rw [(ih _ _ _ _).2, stepImage_fst_buf]
        by_cases h : errorOf use_a4 img = none <;> simp [pagesAndBuf, h]

theorem runLoop_failures (use_a4 : Bool) (bg : Color) (total : Nat)
    (l : List ImgSpec) :
    ∀ (idx : Nat) (st : CanvasSt) (fs : List Failure) (prog : List Nat),
      (runLoop use_a4 bg total l idx st fs prog).2.1
        = fs ++ l.filterMap (fun i => (errorOf use_a4 i).map (Failure.image i.path)) := by
  induction l with
  | nil => intro idx st fs prog; simp [runLoop]
  | cons img rest ih =>
      intro idx st fs prog
      rw [runLoop_cons, ih]
      rcases h : errorOf use_a4 img with _ | e <;> simp [List.filterMap_cons, h]

theorem runLoop_progress (use_a4 : Bool) (bg : Color) (total : Nat)
    (l : List ImgSpec) :
    ∀ (idx : Nat) (st : CanvasSt) (fs : List Failure) (prog : List Nat),
      (runLoop use_a4 bg total l idx st fs prog).2.2
        = prog ++ (List.range' idx l.length).map (fun k => k * 100 / total) := by
  induction l with
  | nil => intro idx st fs prog; simp [runLoop]
  | cons img rest ih =>
      intro idx st fs prog
      rw [runLoop_cons, ih]
      simp [List.range'_succ]

/-! Closed forms of the three observable components of a whole run. -/

theorem run_progress_eq (use_a4 : Bool) (bg : Color) (saveOk : Bool)
    (images : List ImgSpec) :
    (PDFWorker.run use_a4 bg saveOk images).progress
      = (List.range' 1 images.length).map (fun k => k * 100 / images.length) := by
  unfold PDFWorker.run
  dsimp only
  rw [runLoop_progress]
  simp

theorem run_failures_eq (use_a4 : Bool) (bg : Color) (saveOk : Bool)
    (images : List ImgSpec) :
    (PDFWorker.run use_a4 bg saveOk images).failures
      = images.filterMap (fun i => (errorOf use_a4 i).map (Failure.image i.path))
        ++ (if saveOk then [] else [Failure.builder]) := by
  unfold PDFWorker.run
  dsimp only
  rw [runLoop_failures]
  rcases saveOk <;> simp

theorem run_pages_eq (use_a4 : Bool) (bg : Color) (saveOk : Bool)
    (images : List ImgSpec) :
    (PDFWorker.run use_a4 bg saveOk images).pages
      = (pagesAndBuf use_a4 bg images []).1
        ++ (if (pagesAndBuf use_a4 bg images []).2 = [] then []
            else [(pagesAndBuf use_a4 bg images []).2]) := by
  unfold PDFWorker.run
  dsimp only
  have h := runLoop_canvas use_a4 bg images.length images 1
    ⟨[], [], (a4_width, a4_height)⟩ [] []
  rcases hb : (pagesAndBuf use_a4 bg images []).2 with _ | ⟨o, b⟩ <;>
    simp_all [List.isEmpty_iff]

/-! Structural lemmas about `pagesAndBuf`. -/

theorem errorOf_none_elim (use_a4 : Bool) (i : ImgSpec) (h : errorOf use_a4 i = none) :
    i.decodeOk = true ∧ ¬(use_a4 = true ∧ (i.w = 0 ∨ i.h = 0)) ∧ i.drawOk = true := by
  unfold errorOf at h
  by_cases hd : i.decodeOk
  · by_cases hz : use_a4 = true ∧ (i.w = 0 ∨ i.h = 0)
    · simp [hd, hz] at h
    · by_cases hw : i.drawOk
      · exact ⟨hd, hz, hw⟩
      · simp [hd, hz, hw] at h
  · simp [hd] at h

theorem compute_layout_policyOf_ok (use_a4 : Bool) (i : ImgSpec)
    (h : ¬(use_a4 = true ∧ (i.w = 0 ∨ i.h = 0))) :
    ∃ r, compute_layout i.w i.h (policyOf use_a4) = Except.ok r := by
  rcases use_a4 with _ | _
  · exact ⟨_, rfl⟩
  · have hz : ¬(i.w = 0 ∨ i.h = 0) := fun hc => h ⟨rfl, hc⟩
    rcases hc : compute_layout i.w i.h (policyOf true) with e | r
    · exact absurd hc (by simp [policyOf, compute_layout, hz])
    · exact ⟨r, rfl⟩

theorem errorOf_drawError_elim (use_a4 : Bool) (bg : Color) (i : ImgSpec)
    (h : errorOf use_a4 i = some ImgError.drawError) :
    ∃ r, compute_layout i.w i.h (policyOf use_a4) = Except.ok r ∧
      strayOps use_a4 bg i = [Op.setFill bg, Op.rect 0 0 r.pageW r.pageH] := by
  have hz : ¬(use_a4 = true ∧ (i.w = 0 ∨ i.h = 0)) := by
    intro hc
    by_cases hd : i.decodeOk <;> simp [errorOf, hd, hc] at h
  obtain ⟨r, hr⟩ := compute_layout_policyOf_ok use_a4 i hz
  exact ⟨r, hr, by simp [strayOps, h, paintOps, hr]⟩

theorem strayOps_ne_nil_of_drawError (use_a4 : Bool) (bg : Color) (i : ImgSpec)
    (h : errorOf use_a4 i = some ImgError.drawError) :
    strayOps use_a4 bg i ≠ [] := by
  obtain ⟨r, _, hs⟩ := errorOf_drawError_elim use_a4 bg i h
  simp [hs]

theorem pagesAndBuf_append (use_a4 : Bool) (bg : Color) (l₁ l₂ : List ImgSpec) :
    ∀ b, pagesAndBuf use_a4 bg (l₁ ++ l₂) b
      = ((pagesAndBuf use_a4 bg l₁ b).1
            ++ (pagesAndBuf use_a4 bg l₂ (pagesAndBuf use_a4 bg l₁ b).2).1,
         (pagesAndBuf use_a4 bg l₂ (pagesAndBuf use_a4 bg l₁ b).2).2) := by
  induction l₁ with
  | nil => intro b; simp [pagesAndBuf]
  | cons i t ih =>
      intro b
      by_cases h : errorOf use_a4 i = none <;>
        simp [pagesAndBuf, h, ih]

theorem pagesAndBuf_allOk_nil_buf (use_a4 : Bool) (bg : Color) (l : List ImgSpec)
    (h : ∀ i ∈ l, errorOf use_a4 i = none) :
    pagesAndBuf use_a4 bg l [] = (l.map (successOps use_a4 bg), []) := by
  induction l with
  | nil => rfl
  | cons i t ih =>
      have hi : errorOf use_a4 i = none := h i (by simp)
      have ht := ih (fun j hj => h j (by simp [hj]))
      simp [pagesAndBuf, hi, ht]

theorem pagesAndBuf_allOk (use_a4 : Bool) (bg : Color) (i : ImgSpec)
    (t : List ImgSpec) (b : List Op)
    (h : ∀ j ∈ i :: t, errorOf use_a4 j = none) :
    pagesAndBuf use_a4 bg (i :: t) b
      = ((b ++ successOps use_a4 bg i) :: t.map (successOps use_a4 bg), []) := by
  have hi : errorOf use_a4 i = none := h i (by simp)
  have ht := pagesAndBuf_allOk_nil_buf use_a4 bg t (fun j hj => h j (by simp [hj]))
  simp [pagesAndBuf, hi, ht]

theorem pagesAndBuf_noneOk (use_a4 : Bool) (bg : Color) (l : List ImgSpec)
    (h : ∀ i ∈ l, errorOf use_a4 i ≠ none) :
    ∀ b, pagesAndBuf use_a4 bg l b = ([], b ++ strays use_a4 bg l) := by
  induction l with
  | nil => intro b; simp [pagesAndBuf, strays]
  | cons i t ih =>
      intro b
      have hi : errorOf use_a4 i ≠ none := h i (by simp)
      have ht := ih (fun j hj => h j (by simp [hj]))
      simp [pagesAndBuf, hi, ht, strays]

theorem pagesAndBuf_length (use_a4 : Bool) (bg : Color) (l : List ImgSpec) :
    ∀ b, (pagesAndBuf use_a4 bg l b).1.length
      = l.countP (fun i => (errorOf use_a4 i).isNone) := by
  induction l with
  | nil => intro b; simp [pagesAndBuf]
  | cons i t ih =>
      intro b
      by_cases h : errorOf use_a4 i = none <;>
        simp [pagesAndBuf, h, ih, List.countP_cons]

/-! Drawn-image extraction, for order preservation. -/

/-- The image path an operator draws, if it is a `drawImage` operator. -/
def imgPathOf : Op → Option String
  | Op.drawImage p _ _ _ _ => some p
  | Op.setFill _ => none
  | Op.rect _ _ _ _ => none

/-- The source paths of the images drawn by a list of operators, in order. -/
def drawnPaths (ops : List Op) : List String :=
  ops.filterMap imgPathOf

theorem drawnPaths_successOps (use_a4 : Bool) (bg : Color) (i : ImgSpec)
    (h : errorOf use_a4 i = none) :
    drawnPaths (successOps use_a4 bg i) = [i.path] := by
  obtain ⟨_, hz, _⟩ := errorOf_none_elim use_a4 i h
  obtain ⟨r, hr⟩ := compute_layout_policyOf_ok use_a4 i hz
  simp [successOps, hr, drawnPaths, imgPathOf]

theorem drawnPaths_strayOps (use_a4 : Bool) (bg : Color) (i : ImgSpec) :
    drawnPaths (strayOps use_a4 bg i) = [] := by
  rcases hc : compute_layout i.w i.h (policyOf use_a4) with e | r <;>
    by_cases h : errorOf use_a4 i = some ImgError.drawError <;>
      simp [strayOps, h, paintOps, hc, drawnPaths, imgPathOf]

theorem drawnPaths_pagesAndBuf (use_a4 : Bool) (bg : Color) (l : List ImgSpec) :
    ∀ b, drawnPaths ((pagesAndBuf use_a4 bg l b).1.flatten ++ (pagesAndBuf use_a4 bg l b).2)
      = drawnPaths b
        ++ (l.filter (fun i => (errorOf use_a4 i).isNone)).map ImgSpec.path := by
  induction l with
  | nil => intro b; simp [pagesAndBuf]
  | cons i t ih =>
      intro b
      by_cases h : errorOf use_a4 i = none
      · have hs := drawnPaths_successOps use_a4 bg i h
        have iht := ih []
        simp [pagesAndBuf, h, drawnPaths, List.filterMap_append] at iht hs ⊢
        simp [hs, iht]
      · have hn : (errorOf use_a4 i).isNone = false := by
          rcases he : errorOf use_a4 i with _ | e
          · exact absurd he h
          · rfl
        have hs := drawnPaths_strayOps use_a4 bg i
        have ihb := ih (b ++ strayOps use_a4 bg i)
        simp [pagesAndBuf, h, drawnPaths, List.filterMap_append, hn] at ihb ⊢
        simp [drawnPaths] at hs
        simp [ihb, List.filterMap_eq_nil_iff.mpr hs]

/-! Concrete inputs used by counterexamples and witnesses. -/

/-- A well-formed 800x600 image that decodes and draws. -/
def imgA : ImgSpec := ⟨"a.png", true, 800, 600, true⟩

/-- A well-formed 640x480 image that decodes and draws. -/
def imgB : ImgSpec := ⟨"b.png", true, 640, 480, true⟩

/-- A well-formed 400x400 image that decodes and draws. -/
def imgC : ImgSpec := ⟨"c.png", true, 400, 400, true⟩

/-- An image whose dimension probe succeeds but whose `drawImage` call
fails (e.g. a truncated file: `Image.open` reads only the header). -/
def badDraw : ImgSpec := ⟨"bad.png", true, 300, 200, false⟩

/-- An image `Image.open` cannot read at all. -/
def badDecode : ImgSpec := ⟨"corrupt.png", false, 1, 1, true⟩

/-- A white page background. -/
def whiteBg : Color := (1, 1, 1)

/-- Bridge between Python `int(a / b * 100)` on exact values and `Nat`
division: truncation of the non-negative rational is its floor. -/
theorem natDiv_eq_floor (a b : Nat) :
    a * 100 / b = Nat.floor ((a : ℚ) / b * 100) := by
  rcases Nat.eq_zero_or_pos b with hb | hb
  · subst hb; simp
  · have hcast : (a : ℚ) / b * 100 = ((a * 100 : ℕ) : ℚ) / (b : ℚ) := by
      push_cast; ring
    rw [hcast, Nat.floor_div_nat, Nat.floor_natCast]

/-- C1 counterexample: over three images the second emitted progress value
is `int(2 / 3 * 100) = 66`, while the claim's `round(index / N * 100)`
is `67`; the code truncates rather than rounds. -/
theorem spec_C1_cex :
    (PDFWorker.run true whiteBg true [imgA, imgB, imgC]).progress = [33, 66, 100] ∧
    round ((2 : ℚ) / 3 * 100) = 67 := by
  constructor
  · rw [run_progress_eq]; rfl
  · norm_num [round_eq]

/-- C1 (amended): for every run over a non-empty list of `N` images, exactly
one progress value is emitted per input image (failed ones included), and
the value emitted after image number `index` (1-based) is the truncation
`int(index / N * 100)`, i.e. `floor`, not `round`. -/
theorem spec_C1_progress (use_a4 : Bool) (bg : Color) (saveOk : Bool)
    (images : List ImgSpec) (hne : images ≠ []) :
    (PDFWorker.run use_a4 bg saveOk images).progress.length = images.length ∧
    ∀ i (hi : i < (PDFWorker.run use_a4 bg saveOk images).progress.length),
      (PDFWorker.run use_a4 bg saveOk images).progress.get ⟨i, hi⟩
        = Nat.floor (((i : ℚ) + 1) / images.length * 100) := by
  rw [run_progress_eq]
  constructor
  · simp
  · intro i hi
    have hlen : i < images.length := by simpa using hi
    have hv : (1 + i) * 100 / images.length
        = Nat.floor (((1 + i : ℕ) : ℚ) / images.length * 100) :=
      natDiv_eq_floor (1 + i) images.length
    simp [List.get_eq_getElem, List.getElem_range']
    rw [hv]
    push_cast
    ring_nf

/-- Witness for C1 (amended) at a concrete one-image run. -/
theorem spec_C1_progress_witness :
    ([imgA] : List ImgSpec) ≠ [] ∧
    ((PDFWorker.run true whiteBg true [imgA]).progress.length = [imgA].length ∧
     ∀ i (hi : i < (PDFWorker.run true whiteBg true [imgA]).progress.length),
       (PDFWorker.run true whiteBg true [imgA]).progress.get ⟨i, hi⟩
         = Nat.floor (((i : ℚ) + 1) / [imgA].length * 100)) :=
  ⟨by simp, spec_C1_progress true whiteBg true [imgA] (by simp)⟩

/-- C7: over any non-empty run the emitted progress sequence is
non-decreasing and its final value is exactly 100. -/
theorem spec_C7_progress_monotone (use_a4 : Bool) (bg : Color) (saveOk : Bool)
    (images : List ImgSpec) (hne : images ≠ []) :
    (∀ i j (hi : i < (PDFWorker.run use_a4 bg saveOk images).progress.length)
        (hj : j < (PDFWorker.run use_a4 bg saveOk images).progress.length),
      i ≤ j →
        (PDFWorker.run use_a4 bg saveOk images).progress.get ⟨i, hi⟩
          ≤ (PDFWorker.run use_a4 bg saveOk images).progress.get ⟨j, hj⟩) ∧
    (PDFWorker.run use_a4 bg saveOk images).progress.getLast? = some 100 := by
  rw [run_progress_eq]
  constructor
  · intro i j hi hj hij
    simp [List.get_eq_getElem, List.getElem_range']
    exact Nat.div_le_div_right (Nat.mul_le_mul_right 100 (by omega))
  · obtain ⟨m, hm⟩ : ∃ m, images.length = m + 1 :=
      ⟨images.length - 1, by
        have := List.length_pos.mpr hne
        omega⟩
    rw [hm]
    have hcat : List.range' 1 (m + 1) = List.range' 1 m ++ [1 + 1 * m] :=
      List.range'_concat 1 m
    have h100 : (1 + m) * 100 / (m + 1) = 100 := by
      have hrw : 1 + m = m + 1 := by omega
      rw [hrw]
      exact Nat.mul_div_cancel_left 100 (Nat.succ_pos m)
    rw [hcat]
    simp [h100]

/-- Witness for C7 at a concrete two-image run. -/
theorem spec_C7_progress_monotone_witness :
    ([imgA, badDecode] : List ImgSpec) ≠ [] ∧
    ((∀ i j (hi : i < (PDFWorker.run true whiteBg true [imgA, badDecode]).progress.length)
        (hj : j < (PDFWorker.run true whiteBg true [imgA, badDecode]).progress.length),
      i ≤ j →
        (PDFWorker.run true whiteBg true [imgA, badDecode]).progress.get ⟨i, hi⟩
          ≤ (PDFWorker.run true whiteBg true [imgA, badDecode]).progress.get ⟨j, hj⟩) ∧
     (PDFWorker.run true whiteBg true [imgA, badDecode]).progress.getLast? = some 100) :=
  ⟨by simp, spec_C7_progress_monotone true whiteBg true [imgA, badDecode] (by simp)⟩

/-- C3: under the fixed-size policy with page `(W, H)` and positive image
dimensions, the layout succeeds with ratio `min(W/imgW, H/imgH)`, drawn
dimensions `(imgW·ratio, imgH·ratio)`, centring offsets
`((W-drawnW)/2, (H-drawnH)/2)`, exact aspect-ratio preservation (stated by
cross-multiplication, exact because the model uses rationals), and drawn
dimensions bounded by the page. -/
theorem spec_C3_fixed_layout (w h W H : ℚ) (hw : 0 < w) (hh : 0 < h) :
    ∃ r, compute_layout w h (PagePolicy.fixedSize W H) = Except.ok r ∧
      r.ratio = min (W / w) (H / h) ∧
      r.drawnW = w * r.ratio ∧ r.drawnH = h * r.ratio ∧
      r.x = (W - r.drawnW) / 2 ∧ r.y = (H - r.drawnH) / 2 ∧
      r.drawnW * h = r.drawnH * w ∧
      r.drawnW ≤ W ∧ r.drawnH ≤ H := by
  have hw0 : w ≠ 0 := ne_of_gt hw
  have hh0 : h ≠ 0 := ne_of_gt hh
  have hz : ¬(w = 0 ∨ h = 0) := by tauto
  refine ⟨⟨W, H, min (W / w) (H / h), w * min (W / w) (H / h), h * min (W / w) (H / h),
      (W - w * min (W / w) (H / h)) / 2, (H - h * min (W / w) (H / h)) / 2⟩,
    by simp [compute_layout, hz], rfl, rfl, rfl, rfl, rfl, by ring, ?_, ?_⟩
  · have h1 : min (W / w) (H / h) ≤ W / w := min_le_left _ _
    calc w * min (W / w) (H / h) ≤ w * (W / w) :=
          mul_le_mul_of_nonneg_left h1 (le_of_lt hw)
      _ = W := by field_simp
  · have h1 : min (W / w) (H / h) ≤ H / h := min_le_right _ _
    calc h * min (W / w) (H / h) ≤ h * (H / h) :=
          mul_le_mul_of_nonneg_left h1 (le_of_lt hh)
      _ = H := by field_simp

/-- Witness for C3 at the spec's scenario values `800x600` on a `595x842`
page. -/
theorem spec_C3_fixed_layout_witness :
    (0 : ℚ) < 800 ∧ (0 : ℚ) < 600 ∧
    (∃ r, compute_layout 800 600 (PagePolicy.fixedSize 595 842) = Except.ok r ∧
      r.ratio = min ((595 : ℚ) / 800) ((842 : ℚ) / 600) ∧
      r.drawnW = 800 * r.ratio ∧ r.drawnH = 600 * r.ratio ∧
      r.x = (595 - r.drawnW) / 2 ∧ r.y = (842 - r.drawnH) / 2 ∧
      r.drawnW * 600 = r.drawnH * 800 ∧
      r.drawnW ≤ 595 ∧ r.drawnH ≤ 842) :=
  ⟨by norm_num, by norm_num,
    spec_C3_fixed_layout 800 600 595 842 (by norm_num) (by norm_num)⟩

/-- C9: under the match-image policy with positive image dimensions the page
takes the image's dimensions, the ratio is 1 and the offset is `(0, 0)`. -/
theorem spec_C9_match_layout (w h : ℚ) (hw : 0 < w) (hh : 0 < h) :
    ∃ r, compute_layout w h PagePolicy.matchImage = Except.ok r ∧
      r.pageW = w ∧ r.pageH = h ∧ r.ratio = 1 ∧ r.x = 0 ∧ r.y = 0 := by
  refine ⟨_, rfl, rfl, rfl, rfl, ?_, ?_⟩ <;> simp [compute_layout]

/-- Witness for C9 at the spec's scenario values `1000x500`. -/
theorem spec_C9_match_layout_witness :
    (0 : ℚ) < 1000 ∧ (0 : ℚ) < 500 ∧
    (∃ r, compute_layout 1000 500 PagePolicy.matchImage = Except.ok r ∧
      r.pageW = 1000 ∧ r.pageH = 500 ∧ r.ratio = 1 ∧ r.x = 0 ∧ r.y = 0) :=
  ⟨by norm_num, by norm_num,
    spec_C9_match_layout 1000 500 (by norm_num) (by norm_num)⟩

/-- C4 counterexample: the claim demands failure (with a distinct
`InvalidImageDimensions` error) whenever a dimension is non-positive, under
both policies; but under the match-image policy the computation of lines
136-149 performs no division and succeeds even at width 0. -/
theorem spec_C4_cex :
    ∃ r, compute_layout 0 5 PagePolicy.matchImage = Except.ok r :=
  ⟨_, rfl⟩

/-- C4 (amended): the layout computation is a pure function (it is embedded
as one); under the fixed-size policy it fails exactly when a dimension is
zero, and the error it signals is the generic Python `ZeroDivisionError`
of `min(W/imgW, H/imgH)` rather than a distinct `InvalidImageDimensions`;
under the match-image policy it never fails (negative or zero dimensions
included). -/
theorem spec_C4_failure_iff (w h W H : ℚ) :
    (compute_layout w h (PagePolicy.fixedSize W H)
        = Except.error LayoutError.zeroDivisionError ↔ (w = 0 ∨ h = 0)) ∧
    ∃ r, compute_layout w h PagePolicy.matchImage = Except.ok r := by
  constructor
  · by_cases hz : w = 0 ∨ h = 0 <;> simp [compute_layout, hz]
  · exact ⟨_, rfl⟩

/-- C5: when finalization fails the run delivers exactly the per-image
failure entries it accumulated plus one distinct builder-level entry at the
end; a run whose finalization succeeds contains no builder-level entry.
The result (and the failure list with it) is delivered in every modelled
run — `run` is total, so no fault escapes the worker. -/
theorem spec_C5_finalization_failure (use_a4 : Bool) (bg : Color)
    (images : List ImgSpec) :
    (PDFWorker.run use_a4 bg false images).failures
        = (PDFWorker.run use_a4 bg true images).failures ++ [Failure.builder] ∧
    Failure.builder ∉ (PDFWorker.run use_a4 bg true images).failures := by
  constructor
  · rw [run_failures_eq, run_failures_eq]
    simp
  · intro hmem
    rw [run_failures_eq] at hmem
    simp only [if_pos, List.append_nil, List.mem_filterMap] at hmem
    obtain ⟨i, hi, hsome⟩ := hmem
    rcases he : errorOf use_a4 i with _ | e <;> simp [he] at hsome

/-- C6: invoked on an empty input list (with a writable destination, so
finalization succeeds), the run yields a document with zero pages, an empty
failure report and no progress emissions; no error occurs. -/
theorem spec_C6_empty_batch (use_a4 : Bool) (bg : Color) :
    PDFWorker.run use_a4 bg true [] = ⟨[], [], []⟩ := rfl

/-- C2 counterexample: a batch of N = 1 images whose only image fails at
the `drawImage` step, after its background rectangle was painted.  The
claim demands N-1 = 0 pages, but `save` flushes the stranded background as
a committed page, so the document has 1 page (while the failure report
correctly holds the single entry for the image). -/
theorem spec_C2_cex :
    (PDFWorker.run true whiteBg true [badDraw]).pages.length = 1 ∧
    (PDFWorker.run true whiteBg true [badDraw]).failures
      = [Failure.image "bad.png" ImgError.drawError] := by
  constructor <;> rfl

/-- C2 (amended): in a batch where exactly one image fails (at decode,
layout or draw) and every other image succeeds, the failure report is the
single entry referencing the failing image, processing continues through
the whole batch (one progress emission per image), and the document has
exactly N-1 pages — except when the failing image is the last one and
fails at the drawImage step, in which case its already-painted background
is committed as an extra page at save time, giving N pages. -/
theorem spec_C2_single_failure (use_a4 : Bool) (bg : Color)
    (pre post : List ImgSpec) (bad : ImgSpec) (e : ImgError)
    (hpre : ∀ i ∈ pre, errorOf use_a4 i = none)
    (hpost : ∀ i ∈ post, errorOf use_a4 i = none)
    (hbad : errorOf use_a4 bad = some e) :
    (PDFWorker.run use_a4 bg true (pre ++ bad :: post)).failures
        = [Failure.image bad.path e] ∧
    (PDFWorker.run use_a4 bg true (pre ++ bad :: post)).progress.length
        = pre.length + 1 + post.length ∧
    (PDFWorker.run use_a4 bg true (pre ++ bad :: post)).pages.length
        = pre.length + post.length
          + (if e = ImgError.drawError ∧ post = [] then 1 else 0) := by
  have hbadne : errorOf use_a4 bad ≠ none := by simp [hbad]
  refine ⟨?_, ?_, ?_⟩
  · rw [run_failures_eq]
    have h1 : pre.filterMap (fun i => (errorOf use_a4 i).map (Failure.image i.path))
        = [] :=
      List.filterMap_eq_nil_iff.mpr (fun i hi => by simp [hpre i hi])
    have h2 : post.filterMap (fun i => (errorOf use_a4 i).map (Failure.image i.path))
        = [] :=
      List.filterMap_eq_nil_iff.mpr (fun i hi => by simp [hpost i hi])
    simp [List.filterMap_append, List.filterMap_cons, h1, h2, hbad]
  · rw [run_progress_eq]
    simp
    omega
  · rw [run_pages_eq]
    have hpre' := pagesAndBuf_allOk_nil_buf use_a4 bg pre hpre
    rcases post with _ | ⟨j, t⟩
    · have htot : pagesAndBuf use_a4 bg (pre ++ bad :: []) []
          = (pre.map (successOps use_a4 bg), strayOps use_a4 bg bad) := by
        rw [pagesAndBuf_append, hpre']
        simp [pagesAndBuf, hbadne]
      rw [htot]
      by_cases hdraw : e = ImgError.drawError
      · subst hdraw
        have hne := strayOps_ne_nil_of_drawError use_a4 bg bad hbad
        simp [hne]
      · have hnil : strayOps use_a4 bg bad = [] := by
          simp [strayOps, hbad, hdraw]
        simp [hnil, hdraw]
    · have hjt : ∀ i ∈ j :: t, errorOf use_a4 i = none := hpost
      have htot : pagesAndBuf use_a4 bg (pre ++ bad :: j :: t) []
          = (pre.map (successOps use_a4 bg)
              ++ (strayOps use_a4 bg bad ++ successOps use_a4 bg j)
                  :: t.map (successOps use_a4 bg), []) := by
        rw [pagesAndBuf_append, hpre']
        have hj : errorOf use_a4 j = none := hjt j (by simp)
        have ht := pagesAndBuf_allOk_nil_buf use_a4 bg t (fun i hi => hjt i (by simp [hi]))
        simp [pagesAndBuf, hbadne, hj, ht]
      rw [htot]
      simp

/-- Witness for C2 (amended): a three-image batch whose middle image fails
to decode. -/
theorem spec_C2_single_failure_witness :
    (∀ i ∈ [imgA], errorOf true i = none) ∧
    (∀ i ∈ [imgC], errorOf true i = none) ∧
    errorOf true badDecode = some ImgError.decodeError ∧
    ((PDFWorker.run true whiteBg true ([imgA] ++ badDecode :: [imgC])).failures
        = [Failure.image badDecode.path ImgError.decodeError] ∧
     (PDFWorker.run true whiteBg true ([imgA] ++ badDecode :: [imgC])).progress.length
        = [imgA].length + 1 + [imgC].length ∧
     (PDFWorker.run true whiteBg true ([imgA] ++ badDecode :: [imgC])).pages.length
        = [imgA].length + [imgC].length
          + (if ImgError.decodeError = ImgError.drawError ∧ ([imgC] : List ImgSpec) = []
             then 1 else 0)) :=
  ⟨by decide, by decide, by decide,
    spec_C2_single_failure true whiteBg [imgA] [imgC] badDecode ImgError.decodeError
      (by decide) (by decide) (by decide)⟩

/-- C8: the sequence of source images drawn in the saved document, read
page by page in document order, equals the successfully processed input
images in input order — for every input list, failure pattern and save
outcome; page order therefore preserves input order. -/
theorem spec_C8_order_preserved (use_a4 : Bool) (bg : Color) (saveOk : Bool)
    (images : List ImgSpec) :
    drawnPaths (PDFWorker.run use_a4 bg saveOk images).pages.flatten
      = (images.filter (fun i => (errorOf use_a4 i).isNone)).map ImgSpec.path := by
  rw [run_pages_eq]
  have h := drawnPaths_pagesAndBuf use_a4 bg images []
  by_cases hb : (pagesAndBuf use_a4 bg images []).2 = [] <;>
    simp [hb, drawnPaths, List.filterMap_append] at h ⊢ <;>
    exact h

/-- C10: per-image failure handling does not roll back the page under
construction.  If image `bad` fails at the drawImage step, its painted
background operators stay in the buffer; when no later image succeeds they
are committed as the document's final page at save time (first conjunct),
and when some later image `good` is the next success they are committed
underneath `good`'s operators on `good`'s page (second conjunct). -/
theorem spec_C10_no_rollback (use_a4 : Bool) (bg : Color) (saveOk : Bool)
    (pre : List ImgSpec) (bad : ImgSpec) (l : List ImgSpec)
    (hbad : errorOf use_a4 bad = some ImgError.drawError) :
    ((∀ i ∈ l, errorOf use_a4 i ≠ none) →
      (PDFWorker.run use_a4 bg saveOk (pre ++ bad :: l)).pages
        = (pagesAndBuf use_a4 bg pre []).1
          ++ [(pagesAndBuf use_a4 bg pre []).2 ++ strayOps use_a4 bg bad
                ++ strays use_a4 bg l]) ∧
    (∀ mid good rest, l = mid ++ good :: rest →
      (∀ i ∈ mid, errorOf use_a4 i ≠ none) →
      errorOf use_a4 good = none →
      ∃ tail, (PDFWorker.run use_a4 bg saveOk (pre ++ bad :: l)).pages
        = (pagesAndBuf use_a4 bg pre []).1
          ++ ((pagesAndBuf use_a4 bg pre []).2 ++ strayOps use_a4 bg bad
                ++ strays use_a4 bg mid ++ successOps use_a4 bg good) :: tail) := by
  have hbadne : errorOf use_a4 bad ≠ none := by simp [hbad]
  have hsne := strayOps_ne_nil_of_drawError use_a4 bg bad hbad
  constructor
  · intro hl
    rw [run_pages_eq, pagesAndBuf_append]
    have h1 : pagesAndBuf use_a4 bg (bad :: l) (pagesAndBuf use_a4 bg pre []).2
        = ([], (pagesAndBuf use_a4 bg pre []).2 ++ strayOps use_a4 bg bad
              ++ strays use_a4 bg l) := by
      simp [pagesAndBuf, hbadne, pagesAndBuf_noneOk use_a4 bg l hl, List.append_assoc]
    rw [h1]
    have hne2 : (pagesAndBuf use_a4 bg pre []).2 ++ strayOps use_a4 bg bad
        ++ strays use_a4 bg l ≠ [] := by
      intro hc
      rcases List.append_eq_nil.mp hc with ⟨hc1, _⟩
      rcases List.append_eq_nil.mp hc1 with ⟨_, hc3⟩
      exact hsne hc3
    simp
    intro hA hB
    exact absurd hB hsne
  · rintro mid good rest rfl hmid hgood
    rw [run_pages_eq, pagesAndBuf_append]
    have h1 : pagesAndBuf use_a4 bg (bad :: (mid ++ good :: rest))
          (pagesAndBuf use_a4 bg pre []).2
        = (((pagesAndBuf use_a4 bg pre []).2 ++ strayOps use_a4 bg bad
              ++ strays use_a4 bg mid ++ successOps use_a4 bg good)
            :: (pagesAndBuf use_a4 bg rest []).1,
           (pagesAndBuf use_a4 bg rest []).2) := by
      have hm := pagesAndBuf_noneOk use_a4 bg mid hmid
      simp [pagesAndBuf, hbadne, pagesAndBuf_append, hm, hgood, List.append_assoc]
    rw [h1]
    refine ⟨(pagesAndBuf use_a4 bg rest []).1
        ++ (if (pagesAndBuf use_a4 bg rest []).2 = [] then []
            else [(pagesAndBuf use_a4 bg rest []).2]), ?_⟩
    by_cases hr : (pagesAndBuf use_a4 bg rest []).2 = [] <;> simp [hr]

/-- Witness for C10: a draw-failing image followed by one good image; the
good image's page carries the stranded background underneath its own
operators. -/
theorem spec_C10_no_rollback_witness :
    errorOf true badDraw = some ImgError.drawError ∧
    ∃ tail, (PDFWorker.run true whiteBg true ([] ++ badDraw :: [imgA])).pages
      = (pagesAndBuf true whiteBg [] []).1
        ++ ((pagesAndBuf true whiteBg [] []).2 ++ strayOps true whiteBg badDraw
              ++ strays true whiteBg [] ++ successOps true whiteBg imgA) :: tail :=
  ⟨by decide,
    (spec_C10_no_rollback true whiteBg true [] badDraw [imgA] (by decide)).2
      [] imgA [] rfl (by simp) (by decide)⟩

end Image2PDF
